import Mathlib

/-!
# Verification of `gamelibs/src/math.rs`

Two shallow embeddings of the numeric module:

* `F64`: an exact model of IEEE-754 binary64 arithmetic.  A value is its
  64-bit pattern (`F64.Bits`, a `Nat` below `2^64`); finite patterns decode
  to exact fractions (`F64.val`), each arithmetic operation computes the
  exact fraction and rounds it back to the nearest representable value with
  ties to even (`F64.encodeMag`), and the special values (infinities, NaN,
  signed zeros) follow the IEEE special-case tables.  Exact fractions are
  `F64.Q`, integer pairs with kernel-computable arithmetic; `F64.Q.toRat`
  interprets them in `ℚ` and the `_iff` lemmas tie the pair comparisons to
  the `ℚ` order.  `q_rsqrt`, `derivative` and the squaring target function
  are translated op for op from the source on top of this model.  The
  `u64` subtraction in `q_rsqrt` is modelled with wraparound (`F64.wsub64`),
  the release-mode semantics of Rust integer subtraction.

* A real-valued model of the second-order tracker (`CurveStyle`,
  `CurveType.from_style`, `calc_weighted_next`): scalars are an arbitrary
  linear ordered field and the transcendental functions of the source
  (`exp`, `cos`, `cosh`, `sqrt`, the constant `PI`, and the constant
  `f64::MIN_POSITIVE`) are parameters, collected in `ScalarOps`; theorems
  instantiate them with the Mathlib functions on `ℝ` (`realOps`).  In this
  model division by zero yields `0` (the Mathlib convention), standing in
  for the `inf`/`NaN` an `f64` division by zero would produce; theorems
  that touch such a division state explicitly that the divisor is zero.
-/

namespace F64

/-- An exact fraction `n / d`.  Every fraction built below has a positive
denominator; arithmetic is plain integer arithmetic, so it evaluates inside
the kernel. -/
structure Q where
  n : Int
  d : Nat
  deriving DecidableEq

/-- The rational a fraction denotes. -/
def Q.toRat (q : Q) : ℚ := (q.n : ℚ) / (q.d : ℚ)

/-- Fraction addition. -/
def Q.add (a b : Q) : Q := ⟨a.n * b.d + b.n * a.d, a.d * b.d⟩

/-- Fraction subtraction. -/
def Q.sub (a b : Q) : Q := ⟨a.n * b.d - b.n * a.d, a.d * b.d⟩

/-- Fraction multiplication. -/
def Q.mul (a b : Q) : Q := ⟨a.n * b.n, a.d * b.d⟩

/-- Fraction division, keeping the denominator nonnegative by moving the
divisor's sign into the numerator.  Only called with a nonzero divisor
(`fdiv` handles zero divisors before reaching it). -/
def Q.div (a b : Q) : Q := ⟨a.n * b.d * b.n.sign, a.d * b.n.natAbs⟩

/-- Absolute value. -/
def Q.abs (a : Q) : Q := ⟨|a.n|, a.d⟩

/-- Negation. -/
def Q.neg (a : Q) : Q := ⟨-a.n, a.d⟩

/-- Strict order by cross-multiplication (denominators positive). -/
def Q.lt (a b : Q) : Prop := a.n * (b.d : Int) < b.n * (a.d : Int)

/-- Order by cross-multiplication (denominators positive). -/
def Q.le (a b : Q) : Prop := a.n * (b.d : Int) ≤ b.n * (a.d : Int)

instance (a b : Q) : Decidable (Q.lt a b) := by unfold Q.lt; infer_instance

instance (a b : Q) : Decidable (Q.le a b) := by unfold Q.le; infer_instance

/-- On positive denominators, `Q.lt` is the rational strict order. -/
theorem Q.lt_iff (a b : Q) (ha : 0 < a.d) (hb : 0 < b.d) :
    Q.lt a b ↔ a.toRat < b.toRat := by
  unfold Q.lt Q.toRat
  rw [div_lt_div_iff₀ (by exact_mod_cast ha) (by exact_mod_cast hb)]
  constructor <;> intro h <;> exact_mod_cast h

/-- On positive denominators, `Q.le` is the rational order. -/
theorem Q.le_iff (a b : Q) (ha : 0 < a.d) (hb : 0 < b.d) :
    Q.le a b ↔ a.toRat ≤ b.toRat := by
  unfold Q.le Q.toRat
  rw [div_le_div_iff₀ (by exact_mod_cast ha) (by exact_mod_cast hb)]
  constructor <;> intro h <;> exact_mod_cast h

/-- A binary64 value, modelled by its 64-bit pattern. -/
abbrev Bits := Nat

/-- Sign bit of a pattern. -/
def signBit (b : Bits) : Nat := b / 2 ^ 63 % 2

/-- The 11-bit biased exponent field. -/
def expField (b : Bits) : Nat := b / 2 ^ 52 % 2 ^ 11

/-- The 52-bit fraction field. -/
def fracField (b : Bits) : Nat := b % 2 ^ 52

/-- NaN: all-ones exponent, nonzero fraction. -/
def isNaN (b : Bits) : Bool := expField b == 2047 && fracField b != 0

/-- Infinity: all-ones exponent, zero fraction. -/
def isInf (b : Bits) : Bool := expField b == 2047 && fracField b == 0

/-- A finite value (normal, subnormal or zero). -/
def isFinite (b : Bits) : Bool := expField b != 2047

/-- The quiet NaN pattern produced by invalid operations. -/
def qNaN : Bits := 0x7FF8000000000000

/-- Infinity with sign `s`. -/
def infBits (s : Nat) : Bits := s % 2 * 2 ^ 63 + 2047 * 2 ^ 52

/-- Zero with sign `s`. -/
def zeroBits (s : Nat) : Bits := s % 2 * 2 ^ 63

/-- `2 ^ k` as an exact fraction, for `k : ℤ`. -/
def ipow2 (k : Int) : Q :=
  if 0 ≤ k then ⟨(2 ^ k.toNat : Nat), 1⟩ else ⟨1, 2 ^ (-k).toNat⟩

/-- Exact value of a finite pattern. -/
def val (b : Bits) : Q :=
  let mag : Q :=
    if expField b = 0 then Q.mul ⟨(fracField b : Int), 1⟩ (ipow2 (-1074))
    else Q.mul ⟨(2 ^ 52 + fracField b : Nat), 1⟩ (ipow2 ((expField b : Int) - 1075))
  if signBit b = 1 then Q.neg mag else mag

/-- The value of a pattern, `none` for NaN and the infinities. -/
def toVal (b : Bits) : Option Q := if isFinite b then some (val b) else none

/-- Fuelled floor-log2 on `Nat` (structural recursion, kernel-reducible). -/
def nlog2 (fuel n : Nat) : Nat :=
  match fuel with
  | 0 => 0
  | fuel + 1 => if 2 ≤ n then nlog2 fuel (n / 2) + 1 else 0

/-- `⌊log₂ n⌋` for `n ≥ 1` (`0` at `0`). -/
def log2n (n : Nat) : Nat := nlog2 n n

/-- `⌊log₂ q⌋` for a positive fraction. -/
def floorLog2 (q : Q) : Int :=
  let l : Int := (log2n q.n.natAbs : Int) - (log2n q.d : Int)
  if Q.lt q (ipow2 l) then l - 1 else l

/-- Floor of a nonnegative fraction. -/
def rfloorNat (q : Q) : Nat := q.n.toNat / q.d

/-- Round a nonnegative fraction to the nearest integer, ties to even. -/
def roundHalfEven (q : Q) : Nat :=
  let n := rfloorNat q
  let r := Q.sub q ⟨(n : Int), 1⟩
  if Q.lt ⟨1, 2⟩ r then n + 1
  else if Q.lt r ⟨1, 2⟩ then n
  else if n % 2 = 0 then n else n + 1

/-- Round the nonnegative magnitude `q` to binary64 and attach sign `s`:
round to nearest, ties to even, with subnormal and overflow handling.
The final packing writes the sign, exponent and fraction fields through
explicit masks, mirroring the IEEE bit layout. -/
def encodeMag (s : Nat) (q : Q) : Bits :=
  if q.n ≤ 0 then zeroBits s else
  let e0 : Int := max (floorLog2 q - 52) (-1074)
  let m0 : Nat := roundHalfEven (Q.mul q (ipow2 (-e0)))
  let m : Nat := if m0 = 2 ^ 53 then 2 ^ 52 else m0
  let e : Int := if m0 = 2 ^ 53 then e0 + 1 else e0
  if 971 < e then infBits s
  else if m < 2 ^ 52 then s % 2 * 2 ^ 63 + m % 2 ^ 52
  else s % 2 * 2 ^ 63 + (e + 1075).toNat % 2 ^ 11 * 2 ^ 52 + (m - 2 ^ 52) % 2 ^ 52

/-- Flip the sign bit (used to express subtraction via addition). -/
def flipSign (b : Bits) : Bits :=
  if signBit b = 1 then b - 2 ^ 63 else b + 2 ^ 63

/-- IEEE binary64 multiplication on bit patterns. -/
def fmul (a b : Bits) : Bits :=
  if isNaN a || isNaN b then qNaN
  else
    let s := (signBit a + signBit b) % 2
    if isInf a || isInf b then
      if (isFinite a && (val a).n == 0) || (isFinite b && (val b).n == 0) then qNaN
      else infBits s
    else encodeMag s (Q.mul (Q.abs (val a)) (Q.abs (val b)))

/-- IEEE binary64 addition on bit patterns.  An exact zero sum returns `+0`
(round-to-nearest semantics); the `(-0) + (-0) = -0` corner is conflated
with `+0`, which no theorem below depends on. -/
def fadd (a b : Bits) : Bits :=
  if isNaN a || isNaN b then qNaN
  else if isInf a && isInf b then
    if signBit a = signBit b then a else qNaN
  else if isInf a then a
  else if isInf b then b
  else
    let q := Q.add (val a) (val b)
    if q.n = 0 then zeroBits 0
    else if q.n < 0 then encodeMag 1 (Q.abs q) else encodeMag 0 q

/-- IEEE binary64 subtraction: `a + (-b)`. -/
def fsub (a b : Bits) : Bits := fadd a (flipSign b)

/-- IEEE binary64 division on bit patterns (`0/0` and `inf/inf` give NaN). -/
def fdiv (a b : Bits) : Bits :=
  if isNaN a || isNaN b then qNaN
  else
    let s := (signBit a + signBit b) % 2
    if isInf a && isInf b then qNaN
    else if isInf a then infBits s
    else if isInf b then zeroBits s
    else if (val b).n = 0 then (if (val a).n = 0 then qNaN else infBits s)
    else encodeMag s (Q.div (Q.abs (val a)) (Q.abs (val b)))

/-- Wrapping `u64` subtraction, the release-mode semantics of `a - b`. -/
def wsub64 (a b : Nat) : Nat := (a + 2 ^ 64 - b % 2 ^ 64) % 2 ^ 64

/-- The pattern of the literal `1.5`. -/
def c1_5 : Bits := 0x3FF8000000000000

/-- The pattern of the literal `0.5`. -/
def c0_5 : Bits := 0x3FE0000000000000

/-- The pattern of `f64::MIN_POSITIVE` = `2 ^ (-1022)`, the smallest
positive *normal* binary64 value. -/
def MIN_POSITIVE : Bits := 0x0010000000000000

/-- `q_rsqrt` from the source: the 64-bit Quake inverse-square-root port.
`f_in.to_bits()` is the identity in this model; the magic-constant line is
the wrapping `u64` subtraction of the shifted pattern; the three Newton
iterations are `f_out * (1.5 - 0.5 * f_in * f_out * f_out)` with Rust's
left-to-right association. -/
def q_rsqrt (f_in : Bits) : Bits :=
  let f_in_as_bits : Nat := f_in
  let f_in_as_bits : Nat := wsub64 0x5fe6a09e667f3bc8 (f_in_as_bits / 2)
  let f_out : Bits := f_in_as_bits
  let f_out : Bits := fmul f_out (fsub c1_5 (fmul (fmul (fmul c0_5 f_in) f_out) f_out))
  let f_out : Bits := fmul f_out (fsub c1_5 (fmul (fmul (fmul c0_5 f_in) f_out) f_out))
  let f_out : Bits := fmul f_out (fsub c1_5 (fmul (fmul (fmul c0_5 f_in) f_out) f_out))
  f_out

/-- `derivative` from the source, at binary64 precision: central difference
with the fixed step `DELTA = f64::MIN_POSITIVE`, dividing by the *rounded*
difference `x2 - x1`. -/
def derivative (f : Bits → Bits) (x : Bits) : Bits :=
  let x1 : Bits := fsub x MIN_POSITIVE
  let x2 : Bits := fadd x MIN_POSITIVE
  let y1 : Bits := f x1
  let y2 : Bits := f x2
  fdiv (fsub y2 y1) (fsub x2 x1)

/-- The target function `f(x) = x * x` of the spec's derivative test. -/
def sq (b : Bits) : Bits := fmul b b

end F64

/-- The scalar operations the tracker code takes from `f64`/`std`: the
constant `PI`, the functions `exp`, `cos`, `cosh`, `sqrt`, and the constant
`f64::MIN_POSITIVE` used by `derivative`.  Keeping them as parameters keeps
every definition computable; theorems instantiate them with the Mathlib
functions on `ℝ` (`realOps`). -/
structure ScalarOps (α : Type) where
  pi : α
  exp : α → α
  cos : α → α
  cosh : α → α
  sqrt : α → α
  min_positive : α

/-- `CurveStyle` from the source: the user-facing style selection. -/
inductive CurveStyle (α : Type) where
  | Linear
  | Bezier
  | SmoothDamped
  | Mechanical (f z : α)
  | Custom (f z r : α)

/-- `CurveType` from the source.  `from_style` reuses the three raw-named
fields `f`, `z`, `r` for the derived coefficients: it stores `z/(π·f)` in
`f`, `1/ω²` in `r` and `(r·z)/ω` in `z`. -/
structure CurveType (α : Type) where
  f : α
  z : α
  r : α
  _w : α
  _z : α
  _d : α

/-- The `match` at the head of `from_style`: the raw `(f, z, r)` triple per
style, carried in a `CurveType` record with zeroed derived fields, exactly
as the source builds `get_fzr`. -/
def style_fzr {α : Type} [LinearOrderedField α] (c : CurveStyle α) : CurveType α :=
  match c with
  | .Linear => ⟨10, 0, 1, 0, 0, 0⟩
  | .Bezier => ⟨0, 0, 0, 0, 0, 0⟩   -- TODO marker in the source
  | .SmoothDamped => ⟨1, 1, 0, 0, 0, 0⟩
  | .Mechanical f z => ⟨f, z, 2, 0, 0, 0⟩
  | .Custom f z r => ⟨f, z, r, 0, 0, 0⟩

/-- `CurveType::from_style` from the source: derive the coefficient record
from the raw style triple.  Note the field names in the final record: the
source writes `f: z / (PI * f)`, `r: 1.0 / (_w * _w)`, `z: (r * z) / _w`.
There is no error path: every style, including `Bezier` and zero-frequency
`Custom` styles, produces a record. -/
def CurveType.from_style {α : Type} [LinearOrderedField α]
    (ops : ScalarOps α) (c : CurveStyle α) : CurveType α :=
  let get_fzr := style_fzr c
  let f := get_fzr.f
  let z := get_fzr.z
  let r := get_fzr.r
  let _w := 2 * ops.pi * f
  let _z : α := 0
  let _d := _w * ops.sqrt |z * z - 1|
  { f := z / (ops.pi * f)
    r := 1 / (_w * _w)
    z := r * z / _w
    _w := _w, _z := _z, _d := _d }

/-- A three-component vector (`nalgebra_glm::DVec3`). -/
structure DVec3 (α : Type) where
  x : α
  y : α
  z : α

/-- `WeightedNextBundle` from the source: the tracker update's input
bundle.  `last_acc` is carried but, as in the source, never read. -/
structure WeightedNextBundle (α : Type) where
  base_func : α → α
  time : α
  curve : CurveType α
  last_pos : DVec3 α
  last_vel : DVec3 α
  last_acc : DVec3 α

/-- `derivative` from the source, over the model scalars: central
difference with the fixed step `DELTA`, dividing by the computed difference
`x2 - x1`.  The source fixes `DELTA = f64::MIN_POSITIVE`; callers pass it
(the tracker passes `ops.min_positive`). -/
def derivative {α : Type} [LinearOrderedField α] (DELTA : α) (f : α → α) (x : α) : α :=
  let x1 := x - DELTA
  let x2 := x + DELTA
  let y1 := f x1
  let y2 := f x2
  (y2 - y1) / (x2 - x1)

/-- The stabilization-branch computation of `calc_weighted_next`, returning
`(k1_stable, k2_stable)`: the clamp branch when `_w * t < _z`, otherwise
the pole-matching branch with `t1 = exp(-_z*_w*t)`, the `cos`/`cosh` choice
on `_z ≤ 1`, and `t2 = t / (1 + beta - alpha)`. -/
def stable_ks {α : Type} [LinearOrderedField α]
    (ops : ScalarOps α) (c : CurveType α) (k1 k2 : α) (t : α) : α × α :=
  if c._w * t < c._z then
    (k1, max k2 (max (t * t * (1 / 2) + t * k1 * (1 / 2)) (t * k1)))
  else
    let t1 := ops.exp (-c._z * c._w * t)
    let temp := if c._z ≤ 1 then ops.cos (t * c._d) else ops.cosh (t * c._d)
    let alpha := 2 * t1 * temp
    let beta := t1 * t1
    let t2 := t / (1 + beta - alpha)
    ((1 - beta) * t2, t * t2)

/-- `calc_weighted_next` from the source.  It reads `k1 = curve.f`,
`k2 = curve.z`, `k3 = curve.r` (note: `from_style` stored `1/ω²` in `.r`
and `(r·z)/ω` in `.z`), evaluates the target and its derivative at
`t = time`, selects the stabilization coefficients, then updates position
by explicit Euler and velocity by the spring step, component by component,
with the position already updated when the velocity step reads it. -/
def calc_weighted_next {α : Type} [LinearOrderedField α]
    (ops : ScalarOps α) (w : WeightedNextBundle α) : DVec3 α × DVec3 α :=
  let k1 := w.curve.f
  let k2 := w.curve.z
  let k3 := w.curve.r
  let t := w.time
  let x := w.base_func t
  let xd := derivative ops.min_positive w.base_func t
  let y := w.last_pos
  let yd := w.last_vel
  let ks := stable_ks ops w.curve k1 k2 t
  let k1_stable := ks.1
  let k2_stable := ks.2
  let y1 : DVec3 α := ⟨y.x + t * yd.x, y.y + t * yd.y, y.z + t * yd.z⟩
  let yd1 : DVec3 α := ⟨
    yd.x + t * (x + k3 * xd - y1.x - k1_stable * yd.x) / k2_stable,
    yd.y + t * (x + k3 * xd - y1.y - k1_stable * yd.y) / k2_stable,
    yd.z + t * (x + k3 * xd - y1.z - k1_stable * yd.z) / k2_stable⟩
  (y1, yd1)

/-- The real instantiation of the scalar parameters: `PI`, `exp`, `cos`,
`cosh`, `sqrt` from Mathlib and `f64::MIN_POSITIVE = 2^(-1022)`. -/
noncomputable def realOps : ScalarOps ℝ :=
  ⟨Real.pi, Real.exp, Real.cos, Real.cosh, Real.sqrt, 2 ^ (-1022 : ℤ)⟩

/-! ## Range lemmas: every `F64` operation yields a 64-bit pattern -/

theorem F64.zeroBits_lt (s : Nat) : F64.zeroBits s < 2 ^ 64 := by
  have h : s % 2 ≤ 1 := Nat.le_of_lt_succ (Nat.mod_lt _ (by norm_num))
  show s % 2 * 2 ^ 63 < 2 ^ 64
  calc s % 2 * 2 ^ 63 ≤ 1 * 2 ^ 63 := Nat.mul_le_mul_right _ h
    _ < 2 ^ 64 := by norm_num

theorem F64.infBits_lt (s : Nat) : F64.infBits s < 2 ^ 64 := by
  have h : s % 2 ≤ 1 := Nat.le_of_lt_succ (Nat.mod_lt _ (by norm_num))
  show s % 2 * 2 ^ 63 + 2047 * 2 ^ 52 < 2 ^ 64
  calc s % 2 * 2 ^ 63 + 2047 * 2 ^ 52 ≤ 1 * 2 ^ 63 + 2047 * 2 ^ 52 :=
        Nat.add_le_add_right (Nat.mul_le_mul_right _ h) _
    _ < 2 ^ 64 := by norm_num

theorem F64.pack_normal_lt (s a b : Nat) :
    s % 2 * 2 ^ 63 + a % 2 ^ 11 * 2 ^ 52 + b % 2 ^ 52 < 2 ^ 64 := by
  have h2 : s % 2 < 2 := Nat.mod_lt _ (by norm_num)
  have ha : a % 2 ^ 11 < 2 ^ 11 := Nat.mod_lt _ (by norm_num)
  have hb : b % 2 ^ 52 < 2 ^ 52 := Nat.mod_lt _ (by norm_num)
  norm_num at ha hb ⊢
  omega

theorem F64.pack_subnormal_lt (s b : Nat) : s % 2 * 2 ^ 63 + b % 2 ^ 52 < 2 ^ 64 := by
  have h2 : s % 2 < 2 := Nat.mod_lt _ (by norm_num)
  have hb : b % 2 ^ 52 < 2 ^ 52 := Nat.mod_lt _ (by norm_num)
  norm_num at hb ⊢
  omega

theorem F64.qNaN_lt : F64.qNaN < 2 ^ 64 := by
  show (0x7FF8000000000000 : Nat) < 2 ^ 64
  norm_num

theorem F64.encodeMag_lt (s : Nat) (q : F64.Q) : F64.encodeMag s q < 2 ^ 64 := by
  simp only [F64.encodeMag]
  split_ifs
  · exact F64.zeroBits_lt s
  · exact F64.infBits_lt s
  · exact F64.pack_subnormal_lt s _
  · exact F64.pack_normal_lt s _ _
  · exact F64.infBits_lt s
  · exact F64.pack_subnormal_lt s _
  · exact F64.pack_normal_lt s _ _

theorem F64.fmul_lt (a b : F64.Bits) : F64.fmul a b < 2 ^ 64 := by
  simp only [F64.fmul]
  split_ifs
  · exact F64.qNaN_lt
  · exact F64.qNaN_lt
  · exact F64.infBits_lt _
  · exact F64.encodeMag_lt _ _

/-! ## Claim theorems on the binary64 kernels -/

set_option maxRecDepth 40000 in
set_option exponentiation.threshold 2000 in
/-- C5 (counterexample).  The claim says `derivative(f, x)` equals the
central difference over `2δ` and in particular returns `4` (within the
step-size tolerance) for `f(x) = x²` at `x = 2`.  On the code it returns a
NaN there — a value that is not within any tolerance of anything: with
`δ = f64::MIN_POSITIVE`, both `2 + δ` and `2 - δ` round to `2`, so the
quotient is `0/0`. -/
theorem c5_derivative_nan_at_two :
    F64.toVal (F64.derivative F64.sq 0x4000000000000000) = none := by decide

set_option maxRecDepth 40000 in
set_option exponentiation.threshold 2000 in
/-- C5 (amended).  What the code computes: the central difference divided
by the *rounded* difference `(x ⊕ δ) ⊖ (x ⊖ δ)` (not the exact `2δ`), with
`δ = f64::MIN_POSITIVE = 2^(-1022)` (the smallest positive *normal*
binary64 value).  At `x = 2` both `x ⊕ δ` and `x ⊖ δ` round to `2`, so the
estimator returns NaN rather than `4`. -/
theorem c5_derivative_formula_rounded :
    (∀ (f : F64.Bits → F64.Bits) (x : F64.Bits),
      F64.derivative f x =
        F64.fdiv (F64.fsub (f (F64.fadd x F64.MIN_POSITIVE)) (f (F64.fsub x F64.MIN_POSITIVE)))
          (F64.fsub (F64.fadd x F64.MIN_POSITIVE) (F64.fsub x F64.MIN_POSITIVE))) ∧
    F64.fadd 0x4000000000000000 F64.MIN_POSITIVE = 0x4000000000000000 ∧
    F64.fsub 0x4000000000000000 F64.MIN_POSITIVE = 0x4000000000000000 ∧
    F64.derivative F64.sq 0x4000000000000000 = F64.qNaN :=
  ⟨fun _ _ => rfl, by decide, by decide, by decide⟩

set_option maxRecDepth 40000 in
set_option exponentiation.threshold 2000 in
/-- C6.  The three point accuracies of `q_rsqrt`, evaluated in the exact
binary64 model: `|q_rsqrt(1.0) - 1| < 10⁻⁹`, `|q_rsqrt(4.0) - 1/2| < 10⁻⁶`,
`|q_rsqrt(0.25) - 2| < 10⁻⁶` (`0x3FF0...` is `1.0`, `0x4010...` is `4.0`,
`0x3FD0...` is `0.25`; `F64.Q.lt` is the rational order by `Q.lt_iff`). -/
theorem c6_q_rsqrt_point_accuracy :
    F64.Q.lt (F64.Q.abs (F64.Q.sub (F64.val (F64.q_rsqrt 0x3FF0000000000000)) ⟨1, 1⟩))
      ⟨1, 1000000000⟩ ∧
    F64.Q.lt (F64.Q.abs (F64.Q.sub (F64.val (F64.q_rsqrt 0x4010000000000000)) ⟨1, 2⟩))
      ⟨1, 1000000⟩ ∧
    F64.Q.lt (F64.Q.abs (F64.Q.sub (F64.val (F64.q_rsqrt 0x3FD0000000000000)) ⟨2, 1⟩))
      ⟨1, 1000000⟩ := by decide

set_option maxRecDepth 40000 in
set_option exponentiation.threshold 2000 in
/-- C7 (counterexample).  `q_rsqrt` is not strictly decreasing on positive
inputs: `1.0` (`0x3FF0000000000000`) and its binary64 successor
`1.0 + 2⁻⁵²` are two positive values `a < b` with `q_rsqrt a = q_rsqrt b`
— the shifted bit patterns and the rounded Newton iterates coincide — so
`q_rsqrt a > q_rsqrt b` fails. -/
theorem c7_q_rsqrt_adjacent_tie :
    F64.Q.lt ⟨0, 1⟩ (F64.val 0x3FF0000000000000) ∧
    F64.Q.lt (F64.val 0x3FF0000000000000) (F64.val 0x3FF0000000000001) ∧
    F64.q_rsqrt 0x3FF0000000000000 = F64.q_rsqrt 0x3FF0000000000001 ∧
    ¬ F64.Q.lt (F64.val (F64.q_rsqrt 0x3FF0000000000001))
        (F64.val (F64.q_rsqrt 0x3FF0000000000000)) := by decide

set_option maxRecDepth 40000 in
set_option exponentiation.threshold 2000 in
/-- C7 (amended).  `q_rsqrt` decreases strictly across the documented,
well-separated sample inputs `0.25 < 1.0 < 4.0`, but only non-strictly at
adjacent inputs: `1.0` and its successor map to the same output. -/
theorem c7_q_rsqrt_monotone_samples :
    F64.Q.lt (F64.val (F64.q_rsqrt 0x3FF0000000000000))
      (F64.val (F64.q_rsqrt 0x3FD0000000000000)) ∧
    F64.Q.lt (F64.val (F64.q_rsqrt 0x4010000000000000))
      (F64.val (F64.q_rsqrt 0x3FF0000000000000)) ∧
    F64.q_rsqrt 0x3FF0000000000000 = F64.q_rsqrt 0x3FF0000000000001 := by decide

/-- C8.  `q_rsqrt` maps every 64-bit input pattern — zeros, subnormals,
negatives, NaNs and infinities included — to a 64-bit output pattern: the
`u64` magic subtraction wraps (release-mode semantics; under debug-mode
overflow checks inputs below about `-0.228` would abort there) and every
subsequent float operation is total, so no input can make the function
fail. -/
theorem c8_q_rsqrt_total (b : F64.Bits) (_h : b < 2 ^ 64) : F64.q_rsqrt b < 2 ^ 64 := by
  unfold F64.q_rsqrt
  exact F64.fmul_lt _ _

/-- C8 witness: the negative input `-1.0` (`0xBFF0000000000000`), whose
shifted pattern exceeds the magic constant so the subtraction wraps. -/
theorem c8_q_rsqrt_total_witness :
    (0xBFF0000000000000 : Nat) < 2 ^ 64 ∧ F64.q_rsqrt 0xBFF0000000000000 < 2 ^ 64 :=
  ⟨by decide, c8_q_rsqrt_total 0xBFF0000000000000 (by decide)⟩

/-! ## Claim theorems on the tracker -/

/-- C2 (code bug).  The claim (and the spec) require construction from
`Bezier`, or from `Custom` with `f = 0`, to report a configuration error.
The code has no error path: `from_style` is total and returns a coefficient
record — for these styles a degenerate one obtained by dividing by zero
(all-zero here, where division by zero is `0`; `NaN`/`inf` coefficients in
`f64`). -/
theorem c2_from_style_returns_degenerate_coefficients :
    CurveType.from_style realOps (CurveStyle.Bezier : CurveStyle ℝ) = ⟨0, 0, 0, 0, 0, 0⟩ ∧
    CurveType.from_style realOps (CurveStyle.Custom (0 : ℝ) 1 1) = ⟨0, 0, 0, 0, 0, 0⟩ := by
  constructor <;>
    · simp only [CurveType.from_style, style_fzr]
      norm_num

/-- C4 (counterexample).  The claim says the clamp branch guard
`_w * dt < _z` never holds, for *every* curve style and nonnegative `dt`.
A `Custom` style with negative raw frequency refutes it: for
`Custom{f: -1, z: 0, r: 0}` and `dt = 1` the guard is `-2π < 0`, so the
clamp branch *is* taken. -/
theorem c4_clamp_branch_taken_negative_f :
    (CurveType.from_style realOps (CurveStyle.Custom (-1 : ℝ) 0 0))._w * 1 <
      (CurveType.from_style realOps (CurveStyle.Custom (-1 : ℝ) 0 0))._z := by
  show 2 * Real.pi * (-1) * 1 < (0 : ℝ)
  nlinarith [Real.pi_pos]

/-- C4 (amended).  Restricted to styles whose raw frequency `f` is
nonnegative (every named style, and the documented `0.01 < f` range for the
custom ones): `_z` is `0` for every style — `from_style` never stores the
damping ratio in it — and the clamp guard `_w * t < _z` fails for every
`t ≥ 0`, so the update always runs the pole-matching branch. -/
theorem c4_clamp_branch_unreachable_nonneg (c : CurveStyle ℝ) (t : ℝ)
    (hf : 0 ≤ (style_fzr c).f) (ht : 0 ≤ t) :
    (CurveType.from_style realOps c)._z = 0 ∧
    ¬ ((CurveType.from_style realOps c)._w * t < (CurveType.from_style realOps c)._z) := by
  refine ⟨rfl, not_lt.mpr ?_⟩
  show (0 : ℝ) ≤ 2 * Real.pi * (style_fzr c).f * t
  exact mul_nonneg (mul_nonneg (by positivity) hf) ht

/-- C4 witness: the `Linear` style at `t = 1`. -/
theorem c4_clamp_branch_unreachable_witness :
    (0 : ℝ) ≤ (style_fzr (CurveStyle.Linear : CurveStyle ℝ)).f ∧ (0 : ℝ) ≤ 1 ∧
    ((CurveType.from_style realOps (CurveStyle.Linear : CurveStyle ℝ))._z = 0 ∧
     ¬ ((CurveType.from_style realOps (CurveStyle.Linear : CurveStyle ℝ))._w * 1 <
        (CurveType.from_style realOps (CurveStyle.Linear : CurveStyle ℝ))._z)) :=
  ⟨by norm_num [style_fzr], by norm_num,
   c4_clamp_branch_unreachable_nonneg CurveStyle.Linear 1 (by norm_num [style_fzr]) (by norm_num)⟩

/-- C9.  The update never reads the acceleration slot: two bundles equal in
every field but `last_acc` produce identical `(position, velocity)` pairs
(and the returned pair's type carries no acceleration component at all). -/
theorem c9_result_independent_of_last_acc {α : Type} [LinearOrderedField α]
    (ops : ScalarOps α) (w1 w2 : WeightedNextBundle α)
    (hfn : w1.base_func = w2.base_func) (htm : w1.time = w2.time)
    (hcv : w1.curve = w2.curve) (hp : w1.last_pos = w2.last_pos)
    (hv : w1.last_vel = w2.last_vel) :
    calc_weighted_next ops w1 = calc_weighted_next ops w2 := by
  obtain ⟨f1, t1, c1, p1, v1, a1⟩ := w1
  obtain ⟨f2, t2, c2, p2, v2, a2⟩ := w2
  simp only at hfn htm hcv hp hv
  subst hfn htm hcv hp hv
  rfl

/-- C9 witness: two concrete rational bundles differing only in
`last_acc`. -/
theorem c9_result_independent_of_last_acc_witness :
    calc_weighted_next (⟨0, id, id, id, id, 0⟩ : ScalarOps ℚ)
      ⟨id, 0, ⟨0, 0, 0, 0, 0, 0⟩, ⟨0, 0, 0⟩, ⟨0, 0, 0⟩, ⟨1, 2, 3⟩⟩ =
    calc_weighted_next ⟨0, id, id, id, id, 0⟩
      ⟨id, 0, ⟨0, 0, 0, 0, 0, 0⟩, ⟨0, 0, 0⟩, ⟨0, 0, 0⟩, ⟨4, 5, 6⟩⟩ :=
  c9_result_independent_of_last_acc _ _ _ rfl rfl rfl rfl rfl

/-- C10.  The update is the same scalar expression on each vector
component: a bundle whose position components agree and whose velocity
components agree returns a position and a velocity with equal
components. -/
theorem c10_diagonal_preserved {α : Type} [LinearOrderedField α]
    (ops : ScalarOps α) (w : WeightedNextBundle α)
    (hp1 : w.last_pos.x = w.last_pos.y) (hp2 : w.last_pos.y = w.last_pos.z)
    (hv1 : w.last_vel.x = w.last_vel.y) (hv2 : w.last_vel.y = w.last_vel.z) :
    (calc_weighted_next ops w).1.x = (calc_weighted_next ops w).1.y ∧
    (calc_weighted_next ops w).1.y = (calc_weighted_next ops w).1.z ∧
    (calc_weighted_next ops w).2.x = (calc_weighted_next ops w).2.y ∧
    (calc_weighted_next ops w).2.y = (calc_weighted_next ops w).2.z := by
  obtain ⟨fn, t, c, ⟨px, py, pz⟩, ⟨vx, vy, vz⟩, a⟩ := w
  simp only at hp1 hp2 hv1 hv2
  subst hp1 hp2 hv1 hv2
  exact ⟨rfl, rfl, rfl, rfl⟩

/-- C10 witness: a concrete rational bundle with equal components. -/
theorem c10_diagonal_preserved_witness :
    (calc_weighted_next (⟨0, id, id, id, id, 0⟩ : ScalarOps ℚ)
        ⟨id, 1, ⟨1, 1, 1, 1, 1, 1⟩, ⟨2, 2, 2⟩, ⟨3, 3, 3⟩, ⟨0, 0, 0⟩⟩).1.x =
      (calc_weighted_next ⟨0, id, id, id, id, 0⟩
        ⟨id, 1, ⟨1, 1, 1, 1, 1, 1⟩, ⟨2, 2, 2⟩, ⟨3, 3, 3⟩, ⟨0, 0, 0⟩⟩).1.y ∧
    (calc_weighted_next (⟨0, id, id, id, id, 0⟩ : ScalarOps ℚ)
        ⟨id, 1, ⟨1, 1, 1, 1, 1, 1⟩, ⟨2, 2, 2⟩, ⟨3, 3, 3⟩, ⟨0, 0, 0⟩⟩).1.y =
      (calc_weighted_next ⟨0, id, id, id, id, 0⟩
        ⟨id, 1, ⟨1, 1, 1, 1, 1, 1⟩, ⟨2, 2, 2⟩, ⟨3, 3, 3⟩, ⟨0, 0, 0⟩⟩).1.z ∧
    (calc_weighted_next (⟨0, id, id, id, id, 0⟩ : ScalarOps ℚ)
        ⟨id, 1, ⟨1, 1, 1, 1, 1, 1⟩, ⟨2, 2, 2⟩, ⟨3, 3, 3⟩, ⟨0, 0, 0⟩⟩).2.x =
      (calc_weighted_next ⟨0, id, id, id, id, 0⟩
        ⟨id, 1, ⟨1, 1, 1, 1, 1, 1⟩, ⟨2, 2, 2⟩, ⟨3, 3, 3⟩, ⟨0, 0, 0⟩⟩).2.y ∧
    (calc_weighted_next (⟨0, id, id, id, id, 0⟩ : ScalarOps ℚ)
        ⟨id, 1, ⟨1, 1, 1, 1, 1, 1⟩, ⟨2, 2, 2⟩, ⟨3, 3, 3⟩, ⟨0, 0, 0⟩⟩).2.y =
      (calc_weighted_next ⟨0, id, id, id, id, 0⟩
        ⟨id, 1, ⟨1, 1, 1, 1, 1, 1⟩, ⟨2, 2, 2⟩, ⟨3, 3, 3⟩, ⟨0, 0, 0⟩⟩).2.z :=
  c10_diagonal_preserved _ _ rfl rfl rfl rfl

/-- C3 (code bug).  For `SmoothDamped` (`z = 1`) the pole-matching branch
divides by zero on every tick: `_z` is `0`, so `t1 = exp(0) = 1` and
`beta = 1`; `z = 1` makes `_d = 0`, so the cosine is `1` and
`alpha = 2` — the denominator `1 + beta - alpha` is exactly `0` (these
values are exact in binary64 as well, where the velocity becomes NaN).  In
this model the zero division yields `0`, so at `dt = 1`, with a unit-step
target fixed at `1` and state `(0, 0)`, `k2_stable = 0` and the update
returns the state unchanged: the position never rises toward the target,
against the claimed monotone, overshoot-free convergence. -/
theorem c3_smoothdamped_update_divides_by_zero :
    (CurveType.from_style realOps (CurveStyle.SmoothDamped : CurveStyle ℝ))._z = 0 ∧
    (CurveType.from_style realOps (CurveStyle.SmoothDamped : CurveStyle ℝ))._d = 0 ∧
    stable_ks realOps (CurveType.from_style realOps CurveStyle.SmoothDamped)
      (CurveType.from_style realOps CurveStyle.SmoothDamped).f
      (CurveType.from_style realOps CurveStyle.SmoothDamped).z 1 = (0, 0) ∧
    calc_weighted_next realOps
      ⟨fun _ => 1, 1, CurveType.from_style realOps CurveStyle.SmoothDamped,
       ⟨0, 0, 0⟩, ⟨0, 0, 0⟩, ⟨0, 0, 0⟩⟩ = (⟨0, 0, 0⟩, ⟨0, 0, 0⟩) := by
  have hc : CurveType.from_style realOps (CurveStyle.SmoothDamped : CurveStyle ℝ) =
      ⟨1 / Real.pi, 0, 1 / (2 * Real.pi * (2 * Real.pi)), 2 * Real.pi, 0, 0⟩ := by
    simp only [CurveType.from_style, style_fzr, realOps, CurveType.mk.injEq]
    norm_num
  have hks : stable_ks realOps
      (⟨1 / Real.pi, 0, 1 / (2 * Real.pi * (2 * Real.pi)), 2 * Real.pi, 0, 0⟩ : CurveType ℝ)
      (1 / Real.pi) 0 1 = (0, 0) := by
    simp only [stable_ks, realOps]
    rw [if_neg (not_lt.mpr (by positivity))]
    norm_num [Real.exp_zero, Real.cos_zero]
  refine ⟨by rw [hc], by rw [hc], ?_, ?_⟩
  · rw [hc]
    exact hks
  · rw [hc]
    simp only [calc_weighted_next]
    rw [hks]
    simp only [derivative, realOps]
    norm_num

/-- C1 (code bug).  The claim says the velocity step multiplies `xd` by
`k3' = (r·z)/ω` and clamps with floor `k2' = 1/ω²`.  `from_style` stores
`k2' = 1/ω²` in field `.r` and `k3' = (r·z)/ω` in field `.z`, but
`calc_weighted_next` reads `k2 = curve.z` and `k3 = curve.r` — the two
coefficients are swapped.  For the `Linear` style `k3' = (1·0)/ω = 0`, yet
at `dt = 1/40` with target `x(t) = t` and zero state the velocity comes out
`2 + 1/(5π²)`: the `xd` term was multiplied by `.r = 1/ω² = 1/(400π²)`
(scaled by `dt/k2_stable = 80`), not by `k3' = 0`, which would give
exactly `2`. -/
theorem c1_velocity_uses_swapped_coefficient :
    (CurveType.from_style realOps (CurveStyle.Linear : CurveStyle ℝ)).r =
      1 / (400 * Real.pi ^ 2) ∧
    (CurveType.from_style realOps (CurveStyle.Linear : CurveStyle ℝ)).z = 0 ∧
    (calc_weighted_next realOps
        ⟨fun s => s, 1 / 40, CurveType.from_style realOps CurveStyle.Linear,
         ⟨0, 0, 0⟩, ⟨0, 0, 0⟩, ⟨0, 0, 0⟩⟩).2.x = 2 + 1 / (5 * Real.pi ^ 2) ∧
    (2 : ℝ) + 1 / (5 * Real.pi ^ 2) ≠ 2 := by
  have hc : CurveType.from_style realOps (CurveStyle.Linear : CurveStyle ℝ) =
      ⟨0, 0, 1 / (400 * Real.pi ^ 2), 20 * Real.pi, 0, 20 * Real.pi⟩ := by
    simp only [CurveType.from_style, style_fzr, realOps, CurveType.mk.injEq]
    norm_num [Real.sqrt_one]
    ring_nf
    norm_num [mul_comm]
  have hks : stable_ks realOps
      (⟨0, 0, 1 / (400 * Real.pi ^ 2), 20 * Real.pi, 0, 20 * Real.pi⟩ : CurveType ℝ)
      0 0 (1 / 40) = (0, 1 / 3200) := by
    simp only [stable_ks, realOps]
    rw [if_neg (not_lt.mpr (by positivity)),
      show (1 / 40 : ℝ) * (20 * Real.pi) = Real.pi / 2 by ring]
    norm_num [Real.exp_zero, Real.cos_pi_div_two]
  have hxd : derivative (realOps.min_positive) (fun s => s) (1 / 40 : ℝ) = 1 := by
    simp only [derivative]
    refine div_self ?_
    have : (1 / 40 + realOps.min_positive) - (1 / 40 - realOps.min_positive) =
        2 * realOps.min_positive := by ring
    rw [this]
    show (2 : ℝ) * (2 : ℝ) ^ (-1022 : ℤ) ≠ 0
    positivity
  have hpi := Real.pi_pos
  refine ⟨by rw [hc], by rw [hc], ?_, ?_⟩
  · rw [hc]
    simp only [calc_weighted_next]
    rw [hks]
    rw [hxd]
    have hπ : (Real.pi : ℝ) ≠ 0 := ne_of_gt hpi
    field_simp
    ring
  · have h5 : (0 : ℝ) < 1 / (5 * Real.pi ^ 2) := by positivity
    linarith
